import Mathlib

/-!
Verification of the broad-crested weir discharge evaluator
(`src/BroadcrestedWeir.ipynb`).

The source defines
  `g = 9.81`
  `broad_crested_weir_Q(b, H, Cd) = Cd * b * H * sqrt(2 * g * H)`
and a plotting routine `plot_broad_weir(Cd, b, H_max)` that samples
  `H_vals = np.linspace(0.01, H_max, 300)`
and evaluates the discharge at each sample.

Embedding choices: the discharge formula is modelled over the real
numbers (the float `sqrt` becomes `Real.sqrt`); the sampling grid is
pure affine arithmetic and is modelled exactly over the rationals.
`linspace a b n` mirrors `numpy.linspace` with `endpoint=True`:
`n` values `a + i * (b - a) / (n - 1)` for `i = 0, …, n-1`.
-/

/-- Gravitational acceleration constant from the source: `g = 9.81`. -/
def g : ℝ := 9.81

/-- `broad_crested_weir_Q(b, H, Cd) = Cd * b * H * np.sqrt(2 * g * H)`,
argument order as in the source. -/
noncomputable def broad_crested_weir_Q (b H Cd : ℝ) : ℝ :=
  Cd * b * H * Real.sqrt (2 * g * H)

/-- `numpy.linspace start stop num` with `endpoint=True`:
`num` samples `start + i * (stop - start) / (num - 1)`. -/
def linspace (start stop : ℚ) (num : ℕ) : List ℚ :=
  (List.range num).map (fun (i : ℕ) => start + (i : ℚ) * (stop - start) / ((num : ℚ) - 1))

/-- The head grid of `plot_broad_weir`: `H_vals = np.linspace(0.01, H_max, 300)`. -/
def H_vals (H_max : ℚ) : List ℚ :=
  linspace 0.01 H_max 300

/-- The sampled curve produced by `plot_broad_weir(Cd, b, H_max)`:
the `(H, Q)` pairs that are handed to the plotting layer. -/
noncomputable def plot_broad_weir (Cd b H_max : ℚ) : List (ℚ × ℝ) :=
  (H_vals H_max).map (fun H => (H, broad_crested_weir_Q (b : ℝ) (H : ℝ) (Cd : ℝ)))

/-- A list of heads is strictly increasing: any earlier entry is
strictly below any later entry. -/
def StrictIncreasing (l : List ℚ) : Prop :=
  ∀ (i j : ℕ) (x y : ℚ), i < j → l[i]? = some x → l[j]? = some y → x < y

/-! ### Basic facts about the sampling grid -/

lemma linspace_length (a b : ℚ) (n : ℕ) : (linspace a b n).length = n := by
  simp only [linspace, List.length_map, List.length_range]

lemma linspace_getElem (a b : ℚ) (n i : ℕ) (hi : i < n) :
    (linspace a b n)[i]? = some (a + i * (b - a) / ((n : ℚ) - 1)) := by
  simp only [linspace, List.getElem?_map, List.getElem?_range hi]
  rfl

lemma H_vals_length (H_max : ℚ) : (H_vals H_max).length = 300 := by
  simp only [H_vals, linspace_length]

lemma H_vals_getElem (H_max : ℚ) (i : ℕ) (hi : i < 300) :
    (H_vals H_max)[i]? = some (1/100 + i * (H_max - 1/100) / 299) := by
  have h := linspace_getElem 0.01 H_max 300 i hi
  rw [H_vals, h]
  norm_num

lemma H_vals_mem (H_max : ℚ) {H : ℚ} (hH : H ∈ H_vals H_max) :
    ∃ i : ℕ, i < 300 ∧ H = 1/100 + i * (H_max - 1/100) / 299 := by
  simp only [H_vals, linspace, List.mem_map, List.mem_range] at hH
  obtain ⟨i, hi, hval⟩ := hH
  refine ⟨i, hi, ?_⟩
  rw [← hval]
  norm_num

/-! ### Claims -/

/-- C1: for all `Cd, b, H > 0`, the discharge function returns
`Q = Cd * b * H * sqrt(2 * 9.81 * H)`, with `g = 9.81`. -/
theorem C1_discharge_formula (Cd b H : ℝ)
    (hCd : 0 < Cd) (hb : 0 < b) (hH : 0 < H) :
    broad_crested_weir_Q b H Cd = Cd * b * H * Real.sqrt (2 * 9.81 * H) := by
  simp [broad_crested_weir_Q, g]

/-- Witness for C1 at `Cd = 1, b = 1, H = 1`. -/
theorem C1_discharge_formula_witness :
    0 < (1 : ℝ) ∧
      broad_crested_weir_Q 1 1 1 = 1 * 1 * 1 * Real.sqrt (2 * 9.81 * 1) :=
  ⟨by norm_num,
    C1_discharge_formula 1 1 1 (by norm_num) (by norm_num) (by norm_num)⟩

/-- C6: `Q` is exactly linear in `Cd` and in `b`: scaling either by any
scalar `k` scales `Q` by `k`; in particular doubling either doubles `Q`. -/
theorem C6_linear_in_Cd_and_b (Cd b H k : ℝ) :
    broad_crested_weir_Q b H (k * Cd) = k * broad_crested_weir_Q b H Cd ∧
    broad_crested_weir_Q (k * b) H Cd = k * broad_crested_weir_Q b H Cd := by
  constructor <;> · simp [broad_crested_weir_Q]; ring

/-- C2: the head samples are 300 values linearly spaced from 0.01 to
`H_max` inclusive: the first sample is 0.01, the last is `H_max`, and
consecutive samples differ by the constant step `(H_max - 0.01) / 299`. -/
theorem C2_sampling_grid (H_max : ℚ) :
    (H_vals H_max).length = 300 ∧
    (H_vals H_max)[0]? = some (1/100) ∧
    (H_vals H_max)[299]? = some H_max ∧
    ∀ (i : ℕ) (x y : ℚ), i + 1 < 300 →
      (H_vals H_max)[i]? = some x → (H_vals H_max)[i+1]? = some y →
        y - x = (H_max - 1/100) / 299 := by
  refine ⟨H_vals_length H_max, ?_, ?_, ?_⟩
  · rw [H_vals_getElem H_max 0 (by norm_num)]
    norm_num
  · rw [H_vals_getElem H_max 299 (by norm_num)]
    congr 1
    push_cast
    ring
  · intro i x y hi hx hy
    rw [H_vals_getElem H_max i (by omega)] at hx
    rw [H_vals_getElem H_max (i+1) hi] at hy
    obtain rfl := Option.some.inj hx
    obtain rfl := Option.some.inj hy
    push_cast
    ring

/-- Witness for C2 at `H_max = 1`, spacing checked between samples 0 and 1. -/
theorem C2_sampling_grid_witness :
    (0 : ℕ) + 1 < 300 ∧
    (H_vals 1)[0]? = some (1/100) ∧
    (H_vals 1)[1]? = some (199/14950) ∧
    (199/14950 : ℚ) - 1/100 = ((1 : ℚ) - 1/100) / 299 := by
  have h0 : (H_vals 1)[0]? = some (1/100) := (C2_sampling_grid 1).2.1
  have h1 : (H_vals 1)[1]? = some (199/14950) := by
    rw [H_vals_getElem 1 1 (by norm_num)]
    norm_num
  exact ⟨by norm_num, h0, h1,
    (C2_sampling_grid 1).2.2.2 0 (1/100) (199/14950) (by norm_num) h0 h1⟩

/-- C3 counterexample: at `H_max = 1` the last head sample equals 1, so
the samples do not all lie strictly below `H_max`. -/
theorem C3_counterexample : ¬ (∀ H ∈ H_vals 1, H < 1) := by
  intro hcl
  have h299 : (H_vals 1)[299]? = some 1 := by
    rw [H_vals_getElem 1 299 (by norm_num)]
    congr 1
    norm_num
  have hmem : (1 : ℚ) ∈ H_vals 1 := List.mem_iff_getElem?.mpr ⟨299, h299⟩
  exact absurd (hcl 1 hmem) (by norm_num)

/-- C3 amended: whenever `H_max ≥ 0.01`, every head sample lies in the
closed interval `[0.01, H_max]` (hence is strictly positive); the
endpoints are attained, so the strict bound `H < H_max` of the original
claim fails at the last sample. -/
theorem C3_samples_in_closed_interval (H_max : ℚ) (hmax : 1/100 ≤ H_max) :
    ∀ H ∈ H_vals H_max, 0 < H ∧ 1/100 ≤ H ∧ H ≤ H_max := by
  intro H hH
  obtain ⟨i, hi, rfl⟩ := H_vals_mem H_max hH
  have hd : 0 ≤ (H_max - 1/100) / 299 := div_nonneg (by linarith) (by norm_num)
  have hi0 : (0 : ℚ) ≤ (i : ℚ) := Nat.cast_nonneg i
  have hi299 : (i : ℚ) ≤ 299 := by
    have : i ≤ 299 := by omega
    exact_mod_cast this
  have hlow : 0 ≤ (i : ℚ) * ((H_max - 1/100) / 299) := mul_nonneg hi0 hd
  have hhigh : (i : ℚ) * ((H_max - 1/100) / 299) ≤ 299 * ((H_max - 1/100) / 299) :=
    mul_le_mul_of_nonneg_right hi299 hd
  have h299 : (299 : ℚ) * ((H_max - 1/100) / 299) = H_max - 1/100 := by
    field_simp
    ring
  refine ⟨by nlinarith, by nlinarith, by nlinarith⟩

/-- Witness for the amended C3 at `H_max = 1` and the sample `H = 0.01`. -/
theorem C3_samples_in_closed_interval_witness :
    1/100 ≤ (1 : ℚ) ∧
    (0 < (1/100 : ℚ) ∧ 1/100 ≤ (1/100 : ℚ) ∧ (1/100 : ℚ) ≤ 1) := by
  have h0 : (H_vals 1)[0]? = some (1/100) := by
    rw [H_vals_getElem 1 0 (by norm_num)]
    norm_num
  exact ⟨by norm_num,
    C3_samples_in_closed_interval 1 (by norm_num) (1/100)
      (List.mem_iff_getElem?.mpr ⟨0, h0⟩)⟩

/-- C4 counterexample: at `H_max = 1/200` (a positive head range below
the fixed lower sampling bound 0.01) the head samples decrease, so they
are not strictly increasing. -/
theorem C4_counterexample :
    ¬ (StrictIncreasing (H_vals (1/200)) ∧ ∀ H ∈ H_vals (1/200), 0 < H) := by
  rintro ⟨hinc, -⟩
  have h0 : (H_vals (1/200))[0]? = some (1/100) := by
    rw [H_vals_getElem (1/200) 0 (by norm_num)]
    norm_num
  have h1 : (H_vals (1/200))[1]? = some (597/59800) := by
    rw [H_vals_getElem (1/200) 1 (by norm_num)]
    norm_num
  have := hinc 0 1 (1/100) (597/59800) (by norm_num) h0 h1
  norm_num at this

/-- C4 amended: for every evaluation with `H_max > 0.01` (rather than
`H_max > 0`), the head samples are strictly increasing and strictly
positive; for `0 < H_max < 0.01` the grid runs downhill from 0.01. -/
theorem C4_heads_increasing_positive (H_max : ℚ) (hmax : 1/100 < H_max) :
    StrictIncreasing (H_vals H_max) ∧ ∀ H ∈ H_vals H_max, 0 < H := by
  constructor
  · intro i j x y hij hx hy
    have hj : j < 300 := by
      by_contra hcon
      push_neg at hcon
      rw [List.getElem?_eq_none (by rw [H_vals_length]; omega)] at hy
      exact Option.noConfusion hy
    have hi : i < 300 := lt_trans hij hj
    rw [H_vals_getElem H_max i hi] at hx
    rw [H_vals_getElem H_max j hj] at hy
    obtain rfl := Option.some.inj hx
    obtain rfl := Option.some.inj hy
    have hd : 0 < (H_max - 1/100) / 299 := div_pos (by linarith) (by norm_num)
    have hijq : (i : ℚ) < (j : ℚ) := by exact_mod_cast hij
    have hkey := mul_lt_mul_of_pos_right hijq hd
    have e1 : (i : ℚ) * (H_max - 1/100) / 299 = (i : ℚ) * ((H_max - 1/100) / 299) := by
      ring
    have e2 : (j : ℚ) * (H_max - 1/100) / 299 = (j : ℚ) * ((H_max - 1/100) / 299) := by
      ring
    rw [e1, e2]
    linarith
  · intro H hH
    obtain ⟨i, hi, rfl⟩ := H_vals_mem H_max hH
    have hd : 0 ≤ (H_max - 1/100) / 299 := div_nonneg (by linarith) (by norm_num)
    have hlow : 0 ≤ (i : ℚ) * ((H_max - 1/100) / 299) :=
      mul_nonneg (Nat.cast_nonneg i) hd
    nlinarith

/-- Witness for the amended C4 at `H_max = 1`. -/
theorem C4_heads_increasing_positive_witness :
    1/100 < (1 : ℚ) ∧
    (StrictIncreasing (H_vals 1) ∧ ∀ H ∈ H_vals 1, 0 < H) :=
  ⟨by norm_num, C4_heads_increasing_positive 1 (by norm_num)⟩

/-- C5: for fixed `Cd > 0` and `b > 0`, the discharge is strictly
increasing in the head: `0 < H1 < H2` implies `Q(H1) < Q(H2)`. -/
theorem C5_monotone_in_head (Cd b H1 H2 : ℝ) (hCd : 0 < Cd) (hb : 0 < b)
    (h1 : 0 < H1) (h12 : H1 < H2) :
    broad_crested_weir_Q b H1 Cd < broad_crested_weir_Q b H2 Cd := by
  have h2 : 0 < H2 := lt_trans h1 h12
  have hs : Real.sqrt (2 * g * H1) < Real.sqrt (2 * g * H2) := by
    apply Real.sqrt_lt_sqrt (by norm_num [g]; nlinarith) (by norm_num [g]; nlinarith)
  have hs1 : 0 ≤ Real.sqrt (2 * g * H1) := Real.sqrt_nonneg _
  have hstep : H1 * Real.sqrt (2 * g * H1) < H2 * Real.sqrt (2 * g * H2) :=
    mul_lt_mul' (le_of_lt h12) hs hs1 h2
  have hcb : 0 < Cd * b := mul_pos hCd hb
  have := mul_lt_mul_of_pos_left hstep hcb
  simp only [broad_crested_weir_Q]
  nlinarith

/-- Witness for C5 at `Cd = 1, b = 1, H1 = 1, H2 = 2`. -/
theorem C5_monotone_in_head_witness :
    0 < (1 : ℝ) ∧ (1 : ℝ) < 2 ∧
    broad_crested_weir_Q 1 1 1 < broad_crested_weir_Q 1 2 1 :=
  ⟨by norm_num, by norm_num,
    C5_monotone_in_head 1 1 1 2 (by norm_num) (by norm_num) (by norm_num)
      (by norm_num)⟩

/-- C7: the implemented expression equals the power-law form
`Cd * b * sqrt(2 * 9.81) * H ^ 1.5` for positive inputs. -/
theorem C7_power_law (Cd b H : ℝ) (hCd : 0 < Cd) (hb : 0 < b) (hH : 0 < H) :
    broad_crested_weir_Q b H Cd = Cd * b * Real.sqrt (2 * 9.81) * H ^ (1.5 : ℝ) := by
  have h1 : Real.sqrt (2 * 9.81 * H) = Real.sqrt (2 * 9.81) * Real.sqrt H :=
    Real.sqrt_mul (by norm_num) H
  have h2 : H ^ (1.5 : ℝ) = H * Real.sqrt H := by
    rw [show (1.5 : ℝ) = 1 + 1/2 by norm_num, Real.rpow_add hH, Real.rpow_one,
      ← Real.sqrt_eq_rpow]
  simp only [broad_crested_weir_Q, g]
  rw [h1, h2]
  ring

/-- Witness for C7 at `Cd = 1, b = 1, H = 1`. -/
theorem C7_power_law_witness :
    0 < (1 : ℝ) ∧
    broad_crested_weir_Q 1 1 1 = 1 * 1 * Real.sqrt (2 * 9.81) * 1 ^ (1.5 : ℝ) :=
  ⟨by norm_num, C7_power_law 1 1 1 (by norm_num) (by norm_num) (by norm_num)⟩

/-- C8: at `Cd = 0.5, b = 2.0, H = 0.6` the discharge is approximately
2.06 m³/s (within 0.01). -/
theorem C8_worked_example :
    |broad_crested_weir_Q 2 0.6 0.5 - 2.06| < 1/100 := by
  have harg : (2 : ℝ) * g * 0.6 = 11.772 := by norm_num [g]
  have hlo : (3.431 : ℝ) < Real.sqrt (2 * g * 0.6) := by
    rw [harg]
    exact (Real.lt_sqrt (by norm_num)).mpr (by norm_num)
  have hhi : Real.sqrt (2 * g * 0.6) < 3.432 := by
    rw [harg]
    exact (Real.sqrt_lt' (by norm_num)).mpr (by norm_num)
  simp only [broad_crested_weir_Q]
  rw [abs_lt]
  constructor <;> nlinarith

/-- C9: the square-root argument `2 * 9.81 * H` is non-negative for every
`H > 0`, so no domain error can arise, and at `Cd = 0.5, b = 1.0,
H = 0.01` the discharge is a small strictly positive value. -/
theorem C9_sqrt_domain_safe :
    (∀ H : ℝ, 0 < H → 0 ≤ 2 * 9.81 * H) ∧
    0 < broad_crested_weir_Q 1 0.01 0.5 ∧
    broad_crested_weir_Q 1 0.01 0.5 < 1/100 := by
  refine ⟨fun H hH => by nlinarith, ?_, ?_⟩
  · have hs : 0 < Real.sqrt (2 * g * 0.01) :=
      Real.sqrt_pos.mpr (by norm_num [g])
    simp only [broad_crested_weir_Q]
    nlinarith
  · have hhi : Real.sqrt (2 * g * 0.01) < 0.45 := by
      rw [show (2 : ℝ) * g * 0.01 = 0.1962 by norm_num [g]]
      exact (Real.sqrt_lt' (by norm_num)).mpr (by norm_num)
    have hs : 0 ≤ Real.sqrt (2 * g * 0.01) := Real.sqrt_nonneg _
    simp only [broad_crested_weir_Q]
    nlinarith

/-- Witness for C9: the domain condition discharged at `H = 1`. -/
theorem C9_sqrt_domain_safe_witness :
    0 < (1 : ℝ) ∧ 0 ≤ 2 * 9.81 * (1 : ℝ) :=
  ⟨by norm_num, C9_sqrt_domain_safe.1 1 (by norm_num)⟩

/-- C10: the head values of the produced curve depend only on `H_max`:
two evaluations differing only in `Cd` and/or `b` yield the same head
sequence (it is exactly the sampling grid) and the same curve length. -/
theorem C10_heads_independent_of_Cd_b (Cd1 b1 Cd2 b2 H_max : ℚ) :
    (plot_broad_weir Cd1 b1 H_max).map Prod.fst =
      (plot_broad_weir Cd2 b2 H_max).map Prod.fst ∧
    (plot_broad_weir Cd1 b1 H_max).map Prod.fst = H_vals H_max ∧
    (plot_broad_weir Cd1 b1 H_max).length = (plot_broad_weir Cd2 b2 H_max).length := by
  refine ⟨?_, ?_, ?_⟩ <;>
    simp [plot_broad_weir, List.map_map, Function.comp_def]
